import Mathlib

/-!
Verification of the customerimporter package (customer_importer.go).

Strings are embedded as lists of characters (Go compares strings by bytes;
UTF-8 byte order coincides with code-point order, so lexicographic
comparison on characters is faithful).  The CSV reader is embedded at the
abstract row-stream level of the spec: the input is a list of records, and
the reader's field-count check (encoding/csv with the default
FieldsPerRecord = 0: the first record fixes the expected width, any later
record of a different width yields a ParseError with Err = ErrFieldCount
and Column left at zero) is made explicit in the parse loop.  Go maps are
embedded as insertion-ordered association lists; the only map iteration in
the source feeds a sort keyed by the (distinct) map keys, so the result
does not depend on the iteration order the association list fixes.
-/

/-- A Go string, as its sequence of characters. -/
abbrev Str := List Char

/-- Build a `Str` from a Lean string literal (concrete test inputs). -/
def str (s : String) : Str := s.data

/-- A CSV record: an ordered sequence of string fields. -/
abbrev Row := List Str

/-- Go's `<` on strings: lexicographic, byte order (UTF-8 byte order is
code-point order, hence the comparison on `Char.toNat`). -/
def strLt : Str → Str → Bool
  | [], [] => false
  | [], _ :: _ => true
  | _ :: _, [] => false
  | a :: as, b :: bs =>
    if a.toNat < b.toNat then true
    else if b.toNat < a.toNat then false
    else strLt as bs

/-- Go's `strings.Split(s, sep)` for a one-character separator. -/
def splitOnChar (sep : Char) : Str → List Str
  | [] => [[]]
  | ch :: rest =>
    if ch = sep then [] :: splitOnChar sep rest
    else
      match splitOnChar sep rest with
      | [] => [[ch]]
      | part :: parts => (ch :: part) :: parts

/-- The part of an email before the first `@` (the spec's local part). -/
def localPartOf (email : Str) : Str := email.takeWhile (fun ch => ch ≠ '@')

/-- The substring of an email following the first `@` (the spec's domain). -/
def domainPartOf (email : Str) : Str :=
  email.drop ((localPartOf email).length + 1)

/-- Modelled from the spec: the function `IsValidEmail` is called by
`getDomainNameFromEmail` and exercised by `TestIsValidEmail`, but its
definition is not among the source files.  The spec's validation rule
reads: exactly one `@` character, non-empty local part before it,
non-empty domain part after it. -/
def IsValidEmail (email : Str) : Bool :=
  decide (email.count '@' = 1 ∧ localPartOf email ≠ [] ∧ domainPartOf email ≠ [])

/-- The error values of customer_importer.go, plus `fieldCount` for
encoding/csv's ErrFieldCount raised inside Reader.Read. -/
inductive ErrKind where
  | fieldNotExists
  | emailIsNotValid
  | emailDuplicate
  | emptyFile
  | noValidEmailsFound
  | fieldCount
  deriving DecidableEq, Repr

/-- Every error a run surfaces is a csv.ParseError carrying a line, a
column and an underlying error. -/
inductive ImpError where
  | parseError (line : Nat) (column : Nat) (err : ErrKind)
  deriving DecidableEq, Repr

/-- One entry of the result list. -/
structure EmailsByDomainQty where
  Domain : Str
  EmailsCount : Nat
  deriving DecidableEq, Repr

/-- The result data structure. -/
abbrev EmailsByDomainQtyList := List EmailsByDomainQty

deriving instance DecidableEq for Except

/-- getDomainNameFromEmail: validate, then `strings.Split(email, "@")[1]`.
Validity guarantees the split has a second part, so the total `getD`
stand-in for Go's indexing never falls back to its default. -/
def getDomainNameFromEmail (email : Str) : Except ErrKind Str :=
  if IsValidEmail email then .ok ((splitOnChar '@' email).getD 1 [])
  else .error .emailIsNotValid

/-- The `CustomerImporter` struct.  The csv.Reader is factored out: `parse`
below receives the row stream directly. -/
structure CustomerImporter where
  emailFieldName : Str
  emailColumnIndex : Nat
  domainCounter : List (Str × Nat)
  countedEmails : List Str
  line : Nat
  skipErrDupEmails : Bool
  skipErrInvalidEmails : Bool

/-- A functional option of the importer. -/
abbrev ImporterOption := CustomerImporter → CustomerImporter

/-- SkipErrDuplicateEmails option. -/
def SkipErrDuplicateEmails : ImporterOption :=
  fun c => { c with skipErrDupEmails := true }

/-- SkipErrInvalidEmails option. -/
def SkipErrInvalidEmails : ImporterOption :=
  fun c => { c with skipErrInvalidEmails := true }

/-- Go's `m[k]++` on the insertion-ordered association list embedding a
`map[string]int`: bump the binding of `k` in place, or append `(k, 1)`. -/
def mapIncr : List (Str × Nat) → Str → List (Str × Nat)
  | [], k => [(k, 1)]
  | (k', v) :: rest, k =>
    if k' = k then (k', v + 1) :: rest else (k', v) :: mapIncr rest k

/-- handleDuplicates: an already-counted email yields ErrEmailDuplicate and
no state change; otherwise the email is recorded as counted. -/
def handleDuplicates (c : CustomerImporter) (email : Str) :
    CustomerImporter × Option ErrKind :=
  if email ∈ c.countedEmails then (c, some .emailDuplicate)
  else ({ c with countedEmails := c.countedEmails ++ [email] }, none)

/-- updateDomainCounter: duplicate check first (with its mutation), then
validation and domain extraction, then the counter increment.  The second
component is the error `parse` sees (none after a skip). -/
def updateDomainCounter (c : CustomerImporter) (record : Row) :
    CustomerImporter × Option ErrKind :=
  let email := record.getD c.emailColumnIndex []
  match handleDuplicates c email with
  | (c1, some e) => if c1.skipErrDupEmails then (c1, none) else (c1, some e)
  | (c1, none) =>
    match getDomainNameFromEmail email with
    | .error e => if c1.skipErrInvalidEmails then (c1, none) else (c1, some e)
    | .ok domainName =>
      ({ c1 with domainCounter := mapIncr c1.domainCounter domainName }, none)

/-- The left-to-right scan inside determineEmailColumnIndex. -/
def findFieldIndex (fieldName : Str) : Row → Nat → Option Nat
  | [], _ => none
  | r :: rest, index =>
    if r = fieldName then some index else findFieldIndex fieldName rest (index + 1)

/-- determineEmailColumnIndex: record the index of the first header field
equal to the configured name, or fail with the field-not-exists error. -/
def determineEmailColumnIndex (c : CustomerImporter) (headerRecord : Row) :
    Except ErrKind CustomerImporter :=
  match findFieldIndex c.emailFieldName headerRecord 0 with
  | some index => .ok { c with emailColumnIndex := index }
  | none => .error .fieldNotExists

/-- The error method: wrap an error in a csv.ParseError carrying the
current line and the current email column index. -/
def CustomerImporter.error (c : CustomerImporter) (err : ErrKind) : ImpError :=
  .parseError c.line c.emailColumnIndex err

/-- The parse loop.  `fieldsPerRecord` is the csv.Reader's state: `none`
before the first record is read, then the width of the first record, which
every later record must match (a mismatch is the reader's own ParseError,
returned by parse unwrapped, with Column = 0).  Line 1 is the header. -/
def parseLoop (c : CustomerImporter) (fieldsPerRecord : Option Nat) :
    List Row → Except ImpError CustomerImporter
  | [] =>
    let c1 := { c with line := c.line + 1 }
    if c1.line = 1 then .error (c1.error .emptyFile) else .ok c1
  | record :: rest =>
    let c1 := { c with line := c.line + 1 }
    match fieldsPerRecord with
    | none =>
      match determineEmailColumnIndex c1 record with
      | .error e => .error (c1.error e)
      | .ok c2 => parseLoop c2 (some record.length) rest
    | some n =>
      if record.length = n then
        match updateDomainCounter c1 record with
        | (c2, none) => parseLoop c2 (some n) rest
        | (c2, some e) => .error (c2.error e)
      else .error (.parseError c1.line 0 .fieldCount)

/-- parse: run the loop from line 0 with the reader's width not yet fixed. -/
def CustomerImporter.parse (c : CustomerImporter) (rows : List Row) :
    Except ImpError CustomerImporter :=
  parseLoop c none rows

/-- sort.Sort insertion step, with Less comparing domains by `<`. -/
def insertSorted (x : EmailsByDomainQty) :
    EmailsByDomainQtyList → EmailsByDomainQtyList
  | [] => [x]
  | y :: ys =>
    if strLt x.Domain y.Domain then x :: y :: ys else y :: insertSorted x ys

/-- sort.Sort on the result list (domains are distinct map keys, so any
correct sort produces this unique order). -/
def sortResult : EmailsByDomainQtyList → EmailsByDomainQtyList
  | [] => []
  | x :: xs => insertSorted x (sortResult xs)

/-- One domain-counter binding as a result entry. -/
def toQty (p : Str × Nat) : EmailsByDomainQty :=
  { Domain := p.1, EmailsCount := p.2 }

/-- getResult: turn the domain counter into a sorted list; an empty list is
the no-valid-emails error. -/
def getResult (c : CustomerImporter) : Except ImpError EmailsByDomainQtyList :=
  let result := sortResult (c.domainCounter.map toQty)
  if result.length < 1 then .error (c.error .noValidEmailsFound)
  else .ok result

/-- Import: build the importer, apply the options, parse, produce the
result. -/
def Import (rows : List Row) (emailFieldName : Str)
    (options : List ImporterOption) : Except ImpError EmailsByDomainQtyList :=
  let c : CustomerImporter :=
    { emailFieldName := emailFieldName
      emailColumnIndex := 0
      domainCounter := []
      countedEmails := []
      line := 0
      skipErrDupEmails := false
      skipErrInvalidEmails := false }
  let c := options.foldl (fun c option => option c) c
  match c.parse rows with
  | .error e => .error e
  | .ok c1 => getResult c1

/-- The count a result list reports for a domain (0 when absent). -/
def reportedCount (res : EmailsByDomainQtyList) (d : Str) : Nat :=
  ((res.filter (fun e => e.Domain = d)).map (fun e => e.EmailsCount)).sum

/-- The total an association list holds for a key. -/
def assocSum (m : List (Str × Nat)) (d : Str) : Nat :=
  ((m.filter (fun p => p.1 = d)).map (fun p => p.2)).sum

/-- The configuration surface of the spec: the two optional flags, as the
option list they put on a run. -/
def optionsFor (skipDup skipInvalid : Bool) : List ImporterOption :=
  (if skipDup then [SkipErrDuplicateEmails] else []) ++
    (if skipInvalid then [SkipErrInvalidEmails] else [])

/-- The importer Import builds before parsing, flags included. -/
def importInit (emailFieldName : Str) (skipDup skipInvalid : Bool) :
    CustomerImporter :=
  { emailFieldName := emailFieldName
    emailColumnIndex := 0
    domainCounter := []
    countedEmails := []
    line := 0
    skipErrDupEmails := skipDup
    skipErrInvalidEmails := skipInvalid }

/-- The importer state right after a header whose field resolves to idx. -/
def afterHeader (emailFieldName : Str) (sd si : Bool) (idx : Nat) :
    CustomerImporter :=
  { importInit emailFieldName sd si with line := 1, emailColumnIndex := idx }

/-- The non-strict order sort.Sort establishes: no later element is
strictly below an earlier one. -/
def leDomain (a b : EmailsByDomainQty) : Prop := strLt b.Domain a.Domain = false

/-- The strict domain order of the sorted result. -/
def ltDomain (a b : EmailsByDomainQty) : Prop := strLt a.Domain b.Domain = true

/-!  Lemmas about splitting and validation. -/

theorem splitOnChar_of_count_eq_zero {sep : Char} {s : Str}
    (h : s.count sep = 0) : splitOnChar sep s = [s] := by
  induction s with
  | nil => rfl
  | cons ch rest ih =>
    have hne : ¬ ch = sep := by
      intro he
      subst he
      rw [List.count_cons_self] at h
      omega
    have h0 : rest.count sep = 0 := by
      rw [List.count_cons_of_ne (fun he => hne he.symm)] at h
      exact h
    simp [splitOnChar, hne, ih h0]

theorem splitOnChar_at_eq {email : Str} (h : email.count '@' = 1) :
    splitOnChar '@' email = [localPartOf email, domainPartOf email] := by
  induction email with
  | nil => simp at h
  | cons ch rest ih =>
    by_cases hc : ch = '@'
    · subst hc
      have h0 : rest.count '@' = 0 := by
        rw [List.count_cons_self] at h
        omega
      simp [splitOnChar, splitOnChar_of_count_eq_zero h0, localPartOf,
        domainPartOf, List.takeWhile_cons]
    · have h1 : rest.count '@' = 1 := by
        rw [List.count_cons_of_ne (fun he => hc he.symm)] at h
        exact h
      have hl : localPartOf (ch :: rest) = ch :: localPartOf rest := by
        simp [localPartOf, List.takeWhile_cons, hc]
      have hd : domainPartOf (ch :: rest) = domainPartOf rest := by
        simp [domainPartOf, hl, domainPartOf, List.drop_succ_cons]
      simp [splitOnChar, hc, ih h1, hl, hd]

theorem IsValidEmail_iff {email : Str} :
    IsValidEmail email = true ↔
      (email.count '@' = 1 ∧ localPartOf email ≠ [] ∧ domainPartOf email ≠ []) := by
  simp [IsValidEmail]

theorem getDomainNameFromEmail_of_valid {email : Str}
    (h : IsValidEmail email = true) :
    getDomainNameFromEmail email = .ok (domainPartOf email) := by
  have hc : email.count '@' = 1 := (IsValidEmail_iff.mp h).1
  simp [getDomainNameFromEmail, h, splitOnChar_at_eq hc]

theorem getDomainNameFromEmail_of_invalid {email : Str}
    (h : IsValidEmail email = false) :
    getDomainNameFromEmail email = .error .emailIsNotValid := by
  simp [getDomainNameFromEmail, h]

/-!  Lemmas about the lexicographic comparison. -/

theorem charEq_of_toNat_eq {x y : Char} (h : x.toNat = y.toNat) : x = y :=
  Char.eq_of_val_eq (UInt32.ext h)

theorem strLt_irrefl (a : Str) : strLt a a = false := by
  induction a with
  | nil => rfl
  | cons x xs ih => simp [strLt, ih]

theorem strLt_asymm {a b : Str} (h : strLt a b = true) : strLt b a = false := by
  induction a generalizing b with
  | nil =>
    cases b with
    | nil => simp [strLt] at h
    | cons y ys => simp [strLt]
  | cons x xs ih =>
    cases b with
    | nil => simp [strLt] at h
    | cons y ys =>
      rcases Nat.lt_trichotomy x.toNat y.toNat with hxy | hxy | hxy
      · simp [strLt, hxy, Nat.lt_asymm hxy]
      · have hx : x = y := charEq_of_toNat_eq hxy
        subst hx
        simp [strLt, Nat.lt_irrefl] at h ⊢
        exact ih h
      · simp [strLt, hxy, Nat.lt_asymm hxy] at h

theorem strLt_trans {a b c : Str} (hab : strLt a b = true)
    (hbc : strLt b c = true) : strLt a c = true := by
  induction a generalizing b c with
  | nil =>
    cases c with
    | nil =>
      cases b with
      | nil => simp [strLt] at hab
      | cons y ys => simp [strLt] at hbc
    | cons z zs => simp [strLt]
  | cons x xs ih =>
    cases b with
    | nil => simp [strLt] at hab
    | cons y ys =>
      cases c with
      | nil => simp [strLt] at hbc
      | cons z zs =>
        rcases Nat.lt_trichotomy x.toNat y.toNat with hxy | hxy | hxy
        · rcases Nat.lt_trichotomy y.toNat z.toNat with hyz | hyz | hyz
          · simp [strLt, Nat.lt_trans hxy hyz]
          · have hy : y = z := charEq_of_toNat_eq hyz
            subst hy
            simp [strLt, hxy]
          · simp [strLt, hyz, Nat.lt_asymm hyz] at hbc
        · have hx : x = y := charEq_of_toNat_eq hxy
          subst hx
          rcases Nat.lt_trichotomy x.toNat z.toNat with hxz | hxz | hxz
          · simp [strLt, hxz]
          · have hx2 : x = z := charEq_of_toNat_eq hxz
            subst hx2
            simp [strLt, Nat.lt_irrefl] at hab hbc ⊢
            exact ih hab hbc
          · simp [strLt, hxz, Nat.lt_asymm hxz] at hbc
        · simp [strLt, hxy, Nat.lt_asymm hxy] at hab

theorem strLt_false_cases {a b : Str} (h : strLt a b = false) :
    a = b ∨ strLt b a = true := by
  induction a generalizing b with
  | nil =>
    cases b with
    | nil => exact Or.inl rfl
    | cons y ys => simp [strLt] at h
  | cons x xs ih =>
    cases b with
    | nil => exact Or.inr (by simp [strLt])
    | cons y ys =>
      rcases Nat.lt_trichotomy x.toNat y.toNat with hxy | hxy | hxy
      · simp [strLt, hxy] at h
      · have hx : x = y := charEq_of_toNat_eq hxy
        subst hx
        simp [strLt, Nat.lt_irrefl] at h
        rcases ih h with he | hl
        · exact Or.inl (by rw [he])
        · exact Or.inr (by simp [strLt, Nat.lt_irrefl, hl])
      · exact Or.inr (by simp [strLt, hxy, Nat.lt_asymm hxy])

/-!  Lemmas about the sort. -/

theorem insertSorted_perm (x : EmailsByDomainQty) (l : EmailsByDomainQtyList) :
    (insertSorted x l).Perm (x :: l) := by
  induction l with
  | nil => simp [insertSorted]
  | cons y ys ih =>
    by_cases hxy : strLt x.Domain y.Domain = true
    · simp [insertSorted, hxy]
    · rw [Bool.not_eq_true] at hxy
      simp only [insertSorted, hxy, Bool.false_eq_true, if_false]
      exact (ih.cons y).trans (List.Perm.swap x y ys)

theorem sortResult_perm (l : EmailsByDomainQtyList) : (sortResult l).Perm l := by
  induction l with
  | nil => simp [sortResult]
  | cons x xs ih =>
    exact (insertSorted_perm x (sortResult xs)).trans (ih.cons x)

theorem insertSorted_pairwise {x : EmailsByDomainQty}
    {l : EmailsByDomainQtyList} (h : l.Pairwise leDomain) :
    (insertSorted x l).Pairwise leDomain := by
  induction l with
  | nil => simp [insertSorted, leDomain]
  | cons y ys ih =>
    rcases List.pairwise_cons.mp h with ⟨hy, hys⟩
    by_cases hxy : strLt x.Domain y.Domain = true
    · simp only [insertSorted, hxy, if_true]
      refine List.pairwise_cons.mpr ⟨?_, h⟩
      intro z hz
      rcases List.mem_cons.mp hz with rfl | hz
      · exact strLt_asymm hxy
      · show strLt z.Domain x.Domain = false
        by_contra hzx
        rw [Bool.not_eq_false] at hzx
        have hzy := strLt_trans hzx hxy
        rw [hy z hz] at hzy
        exact Bool.false_ne_true hzy
    · rw [Bool.not_eq_true] at hxy
      simp only [insertSorted, hxy, Bool.false_eq_true, if_false]
      refine List.pairwise_cons.mpr ⟨?_, ih hys⟩
      intro z hz
      have hz' := (insertSorted_perm x ys).mem_iff.mp hz
      rcases List.mem_cons.mp hz' with rfl | hz'
      · exact hxy
      · exact hy z hz'

theorem sortResult_pairwise (l : EmailsByDomainQtyList) :
    (sortResult l).Pairwise leDomain := by
  induction l with
  | nil => simp [sortResult]
  | cons x xs ih => exact insertSorted_pairwise ih

theorem sortResult_pairwise_lt {l : EmailsByDomainQtyList}
    (hnd : (l.map (fun e => e.Domain)).Nodup) :
    (sortResult l).Pairwise ltDomain := by
  have hnd' : ((sortResult l).map (fun e => e.Domain)).Nodup := by
    exact (((sortResult_perm l).map (fun e => e.Domain)).nodup_iff).mpr hnd
  have hne : (sortResult l).Pairwise (fun a b => a.Domain ≠ b.Domain) :=
    List.pairwise_map.mp hnd'
  have hle := sortResult_pairwise l
  refine (hne.and hle).imp ?_
  intro a b hab
  rcases strLt_false_cases hab.2 with he | hl
  · exact absurd he.symm hab.1
  · exact hl

/-!  Lemmas about the counter map. -/

theorem mapIncr_assocSum (m : List (Str × Nat)) (k d : Str) :
    assocSum (mapIncr m k) d = assocSum m d + (if k = d then 1 else 0) := by
  induction m with
  | nil =>
    by_cases h : k = d <;> simp [mapIncr, assocSum, h]
  | cons p rest ih =>
    obtain ⟨k', v⟩ := p
    by_cases hk : k' = k
    · subst hk
      by_cases hd : k' = d <;> simp [mapIncr, assocSum, hd] <;> omega
    · have hstep : mapIncr ((k', v) :: rest) k = (k', v) :: mapIncr rest k := by
        simp [mapIncr, hk]
      rw [hstep]
      by_cases hd : k' = d
      · have hkd : ¬ (k = d) := fun he => hk (hd.trans he.symm)
        simp [assocSum, List.filter_cons, hd, hkd] at ih ⊢
        omega
      · simp [assocSum, List.filter_cons, hd] at ih ⊢
        omega

theorem mapIncr_keys (m : List (Str × Nat)) (k : Str) :
    (mapIncr m k).map Prod.fst =
      (if k ∈ m.map Prod.fst then m.map Prod.fst
       else m.map Prod.fst ++ [k]) := by
  induction m with
  | nil => simp [mapIncr]
  | cons p rest ih =>
    obtain ⟨k', v⟩ := p
    by_cases hk : k' = k
    · subst hk
      simp [mapIncr]
    · by_cases hm : k ∈ rest.map Prod.fst <;>
        simp [mapIncr, hk, hm, Ne.symm hk, ih]

theorem mapIncr_keys_nodup {m : List (Str × Nat)} {k : Str}
    (h : (m.map Prod.fst).Nodup) : ((mapIncr m k).map Prod.fst).Nodup := by
  rw [mapIncr_keys]
  by_cases hm : k ∈ m.map Prod.fst
  · simpa [hm] using h
  · simp only [hm, if_false]
    rw [List.nodup_append]
    exact ⟨h, List.nodup_singleton k, by simpa using hm⟩

theorem mapIncr_values_pos {m : List (Str × Nat)} {k : Str}
    (h : ∀ p ∈ m, 1 ≤ p.2) : ∀ p ∈ mapIncr m k, 1 ≤ p.2 := by
  induction m with
  | nil =>
    intro p hp
    simp [mapIncr] at hp
    simp [hp]
  | cons q rest ih =>
    obtain ⟨k', v⟩ := q
    intro p hp
    by_cases hk : k' = k
    · subst hk
      simp [mapIncr] at hp
      rcases hp with rfl | hp
      · simp
      · exact h p (List.mem_cons_of_mem _ hp)
    · simp [mapIncr, hk] at hp
      rcases hp with rfl | hp
      · exact h (k', v) (List.mem_cons_self _ _)
      · exact ih (fun q hq => h q (List.mem_cons_of_mem _ hq)) p hp

/-!  Lemmas about the reported counts. -/

theorem reportedCount_perm {l₁ l₂ : EmailsByDomainQtyList}
    (h : l₁.Perm l₂) (d : Str) : reportedCount l₁ d = reportedCount l₂ d := by
  unfold reportedCount
  exact ((h.filter _).map _).sum_eq

theorem reportedCount_map_toQty (m : List (Str × Nat)) (d : Str) :
    reportedCount (m.map toQty) d = assocSum m d := by
  induction m with
  | nil => rfl
  | cons p rest ih =>
    obtain ⟨k, v⟩ := p
    by_cases hd : k = d <;>
      simp [reportedCount, assocSum, toQty, hd, List.filter_cons] at ih ⊢ <;>
      omega

/-!  Characterization of one row step. -/

theorem handleDuplicates_mem {c : CustomerImporter} {email : Str}
    (hm : email ∈ c.countedEmails) :
    handleDuplicates c email = (c, some .emailDuplicate) := by
  simp [handleDuplicates, hm]

theorem handleDuplicates_not_mem {c : CustomerImporter} {email : Str}
    (hm : email ∉ c.countedEmails) :
    handleDuplicates c email =
      ({ c with countedEmails := c.countedEmails ++ [email] }, none) := by
  simp [handleDuplicates, hm]

theorem updateDomainCounter_cases (c : CustomerImporter) (record : Row) :
    updateDomainCounter c record =
      (if (record.getD c.emailColumnIndex []) ∈ c.countedEmails then
        (c, if c.skipErrDupEmails then none else some .emailDuplicate)
       else if IsValidEmail (record.getD c.emailColumnIndex []) then
        ({ c with
            countedEmails := c.countedEmails ++ [record.getD c.emailColumnIndex []],
            domainCounter := mapIncr c.domainCounter
              (domainPartOf (record.getD c.emailColumnIndex [])) }, none)
       else
        ({ c with
            countedEmails := c.countedEmails ++ [record.getD c.emailColumnIndex []] },
         if c.skipErrInvalidEmails then none else some .emailIsNotValid)) := by
  simp only [updateDomainCounter]
  generalize he : record.getD c.emailColumnIndex [] = email
  by_cases hm : email ∈ c.countedEmails
  · rw [handleDuplicates_mem hm]
    by_cases hs : c.skipErrDupEmails = true <;> simp [hm, hs]
  · rw [handleDuplicates_not_mem hm]
    by_cases hv : IsValidEmail email = true
    · rw [getDomainNameFromEmail_of_valid hv]
      simp [hm, hv]
    · rw [Bool.not_eq_true] at hv
      rw [getDomainNameFromEmail_of_invalid hv]
      by_cases hs : c.skipErrInvalidEmails = true <;> simp [hm, hv, hs]

theorem updateDomainCounter_fields (c : CustomerImporter) (record : Row) :
    ((updateDomainCounter c record).1.emailColumnIndex = c.emailColumnIndex ∧
     (updateDomainCounter c record).1.emailFieldName = c.emailFieldName ∧
     (updateDomainCounter c record).1.line = c.line ∧
     (updateDomainCounter c record).1.skipErrDupEmails = c.skipErrDupEmails ∧
     (updateDomainCounter c record).1.skipErrInvalidEmails =
       c.skipErrInvalidEmails) ∧
    ((updateDomainCounter c record).1.domainCounter = c.domainCounter ∨
     ∃ d, (updateDomainCounter c record).1.domainCounter =
       mapIncr c.domainCounter d) := by
  rw [updateDomainCounter_cases]
  generalize record.getD c.emailColumnIndex [] = email
  by_cases hm : email ∈ c.countedEmails
  · refine ⟨?_, Or.inl ?_⟩ <;> simp [hm]
  · by_cases hv : IsValidEmail email = true
    · refine ⟨?_, Or.inr ⟨domainPartOf email, ?_⟩⟩ <;> simp [hm, hv]
    · rw [Bool.not_eq_true] at hv
      refine ⟨?_, Or.inl ?_⟩ <;> simp [hm, hv]

theorem updateDomainCounter_err_kinds {c : CustomerImporter} {record : Row}
    {e : ErrKind} (h : (updateDomainCounter c record).2 = some e) :
    e = .emailDuplicate ∨ e = .emailIsNotValid := by
  rw [updateDomainCounter_cases] at h
  generalize record.getD c.emailColumnIndex [] = email at h
  by_cases hm : email ∈ c.countedEmails
  · by_cases hs : c.skipErrDupEmails = true
    · simp [hm, hs] at h
    · simp [hm, hs] at h
      subst h
      simp
  · by_cases hv : IsValidEmail email = true
    · simp [hm, hv] at h
    · rw [Bool.not_eq_true] at hv
      by_cases hs : c.skipErrInvalidEmails = true
      · simp [hm, hv, hs] at h
      · simp [hm, hv, hs] at h
        subst h
        simp

/-!  Invariants of the parse loop after the header line. -/

theorem parseLoop_ok_inv {n : Nat} {rows : List Row} {c c' : CustomerImporter}
    (hline : 1 ≤ c.line) (h : parseLoop c (some n) rows = .ok c') :
    c'.emailColumnIndex = c.emailColumnIndex ∧
    c'.emailFieldName = c.emailFieldName ∧
    c'.skipErrDupEmails = c.skipErrDupEmails ∧
    c'.skipErrInvalidEmails = c.skipErrInvalidEmails ∧
    c'.line = c.line + rows.length + 1 ∧
    ((c.domainCounter.map Prod.fst).Nodup →
      (c'.domainCounter.map Prod.fst).Nodup) ∧
    ((∀ p ∈ c.domainCounter, 1 ≤ p.2) → ∀ p ∈ c'.domainCounter, 1 ≤ p.2) := by
  induction rows generalizing c with
  | nil =>
    have hne : ¬ (c.line + 1 = 1) := by omega
    simp [parseLoop, hne] at h
    subst h
    simp
  | cons record rest ih =>
    rw [parseLoop] at h
    by_cases hlen : record.length = n
    · simp only [hlen, if_true] at h
      rcases hud : updateDomainCounter { c with line := c.line + 1 } record
        with ⟨c2, e⟩
      rw [hud] at h
      cases e with
      | some e0 => simp at h
      | none =>
        have hf := updateDomainCounter_fields { c with line := c.line + 1 } record
        rw [hud] at hf
        simp only at hf
        obtain ⟨⟨hcol, hname, hl, hd, hi⟩, hdc⟩ := hf
        have hline2 : 1 ≤ c2.line := by rw [hl]; omega
        obtain ⟨icol, iname, id2, ii, il, ind, ipos⟩ := ih hline2 h
        refine ⟨by rw [icol, hcol], by rw [iname, hname],
          by rw [id2, hd], by rw [ii, hi], by rw [il, hl]; simp; omega,
          ?_, ?_⟩
        · intro hnd
          apply ind
          rcases hdc with heq | ⟨dm, heq⟩
          · rw [heq]; exact hnd
          · rw [heq]; exact mapIncr_keys_nodup hnd
        · intro hpos
          apply ipos
          rcases hdc with heq | ⟨dm, heq⟩
          · rw [heq]; exact hpos
          · rw [heq]; exact mapIncr_values_pos hpos
    · simp [hlen] at h

theorem parseLoop_error_inv {n : Nat} {rows : List Row} {c : CustomerImporter}
    {e : ImpError} (hline : 1 ≤ c.line)
    (h : parseLoop c (some n) rows = .error e) :
    ∃ l col k, e = .parseError l col k ∧ c.line + 1 ≤ l ∧
      ((k = .fieldCount ∧ col = 0) ∨
       ((k = .emailIsNotValid ∨ k = .emailDuplicate) ∧
         col = c.emailColumnIndex)) := by
  induction rows generalizing c with
  | nil =>
    have hne : ¬ (c.line + 1 = 1) := by omega
    simp [parseLoop, hne] at h
  | cons record rest ih =>
    rw [parseLoop] at h
    by_cases hlen : record.length = n
    · simp only [hlen, if_true] at h
      rcases hud : updateDomainCounter { c with line := c.line + 1 } record
        with ⟨c2, eo⟩
      rw [hud] at h
      have hf := updateDomainCounter_fields { c with line := c.line + 1 } record
      rw [hud] at hf
      obtain ⟨⟨hcol, _, hl, _, _⟩, _⟩ := hf
      simp only at hcol hl
      cases eo with
      | none =>
        have hline2 : 1 ≤ c2.line := by omega
        obtain ⟨l, col, k, he, hle, hk⟩ := ih hline2 h
        refine ⟨l, col, k, he, by omega, ?_⟩
        rcases hk with hk | ⟨hk, hc⟩
        · exact Or.inl hk
        · exact Or.inr ⟨hk, by rw [hc, hcol]⟩
      | some e0 =>
        simp [CustomerImporter.error] at h
        have hkind := @updateDomainCounter_err_kinds
          { c with line := c.line + 1 } record e0 (by rw [hud])
        subst h
        refine ⟨c2.line, c2.emailColumnIndex, e0, rfl, by omega, ?_⟩
        exact Or.inr ⟨hkind.symm, by rw [hcol]⟩
    · simp [hlen] at h
      subst h
      exact ⟨c.line + 1, 0, .fieldCount, rfl, by omega, Or.inl ⟨rfl, rfl⟩⟩

/-!  The header line. -/

theorem parseLoop_header {c : CustomerImporter} {hdr : Row} {idx : Nat}
    (rows : List Row) (hline : c.line = 0)
    (hidx : findFieldIndex c.emailFieldName hdr 0 = some idx) :
    parseLoop c none (hdr :: rows) =
      parseLoop { c with line := 1, emailColumnIndex := idx }
        (some hdr.length) rows := by
  have hstep : parseLoop c none (hdr :: rows) =
      (match determineEmailColumnIndex { c with line := c.line + 1 } hdr with
       | .error e => .error (({ c with line := c.line + 1 }
           : CustomerImporter).error e)
       | .ok c2 => parseLoop c2 (some hdr.length) rows) := rfl
  have hd : determineEmailColumnIndex { c with line := c.line + 1 } hdr =
      .ok { c with line := c.line + 1, emailColumnIndex := idx } := by
    simp [determineEmailColumnIndex, hidx]
  rw [hstep, hd, hline]

theorem parseLoop_header_err {c : CustomerImporter} {hdr : Row}
    (rows : List Row)
    (hidx : findFieldIndex c.emailFieldName hdr 0 = none) :
    parseLoop c none (hdr :: rows) =
      .error (.parseError (c.line + 1) c.emailColumnIndex .fieldNotExists) := by
  have hstep : parseLoop c none (hdr :: rows) =
      (match determineEmailColumnIndex { c with line := c.line + 1 } hdr with
       | .error e => .error (({ c with line := c.line + 1 }
           : CustomerImporter).error e)
       | .ok c2 => parseLoop c2 (some hdr.length) rows) := rfl
  have hd : determineEmailColumnIndex { c with line := c.line + 1 } hdr =
      .error .fieldNotExists := by
    simp [determineEmailColumnIndex, hidx]
  rw [hstep, hd]
  rfl

/-!  Finalization. -/

theorem getResult_ok_of_ne_nil {c : CustomerImporter}
    (h : c.domainCounter ≠ []) :
    getResult c = .ok (sortResult (c.domainCounter.map toQty)) := by
  have hlen : (sortResult (c.domainCounter.map toQty)).length =
      c.domainCounter.length := by
    rw [(sortResult_perm _).length_eq]
    simp
  have hpos : ¬ (sortResult (c.domainCounter.map toQty)).length < 1 := by
    rw [hlen]
    cases hm : c.domainCounter with
    | nil => exact absurd hm h
    | cons p rest => simp
  simp [getResult, hpos]

theorem getResult_err_of_nil {c : CustomerImporter} (h : c.domainCounter = []) :
    getResult c =
      .error (.parseError c.line c.emailColumnIndex .noValidEmailsFound) := by
  simp [getResult, h, sortResult, CustomerImporter.error]

theorem getResult_ok_inv {c : CustomerImporter} {res : EmailsByDomainQtyList}
    (h : getResult c = .ok res) :
    res = sortResult (c.domainCounter.map toQty) ∧ c.domainCounter ≠ [] := by
  by_cases hnil : c.domainCounter = []
  · rw [getResult_err_of_nil hnil] at h
    simp at h
  · rw [getResult_ok_of_ne_nil hnil] at h
    exact ⟨(Except.ok.inj h).symm, hnil⟩

/-!  Import, with the options the configuration surface offers. -/

theorem Import_eq (rows : List Row) (emailFieldName : Str)
    (sd si : Bool) :
    Import rows emailFieldName (optionsFor sd si) =
      (match parseLoop (importInit emailFieldName sd si) none rows with
       | .error e => .error e
       | .ok c1 => getResult c1) := by
  cases sd <;> cases si <;> rfl

/-!  The counting invariant for valid, pairwise-distinct emails. -/

theorem parseLoop_ok_counts {n : Nat} {rows : List Row} {c : CustomerImporter}
    (hline : 1 ≤ c.line)
    (hvalid : ∀ r ∈ rows, IsValidEmail (r.getD c.emailColumnIndex []) = true)
    (hnodup : (rows.map (fun r => r.getD c.emailColumnIndex [])).Nodup)
    (hfresh : ∀ r ∈ rows, r.getD c.emailColumnIndex [] ∉ c.countedEmails)
    (hlen : ∀ r ∈ rows, r.length = n) :
    ∃ c', parseLoop c (some n) rows = .ok c' ∧
      ∀ d, assocSum c'.domainCounter d =
        assocSum c.domainCounter d +
          (rows.filter
            (fun r => domainPartOf (r.getD c.emailColumnIndex []) = d)).length := by
  induction rows generalizing c with
  | nil =>
    have hne : ¬ (c.line + 1 = 1) := by omega
    refine ⟨{ c with line := c.line + 1 }, by simp [parseLoop, hne], ?_⟩
    intro d
    simp
  | cons record rest ih =>
    have hrl : record.length = n := hlen record (List.mem_cons_self _ _)
    have hv : IsValidEmail (record.getD c.emailColumnIndex []) = true :=
      hvalid record (List.mem_cons_self _ _)
    have hm : record.getD c.emailColumnIndex [] ∉ c.countedEmails :=
      hfresh record (List.mem_cons_self _ _)
    have hud : updateDomainCounter { c with line := c.line + 1 } record =
        ({ c with
            line := c.line + 1,
            countedEmails :=
              c.countedEmails ++ [record.getD c.emailColumnIndex []],
            domainCounter := mapIncr c.domainCounter
              (domainPartOf (record.getD c.emailColumnIndex [])) }, none) := by
      rw [updateDomainCounter_cases]
      revert hm hv
      generalize record.getD c.emailColumnIndex [] = email
      intro hm hv
      simp [hm, hv]
    have hstep : parseLoop c (some n) (record :: rest) =
        (if record.length = n then
          (match updateDomainCounter { c with line := c.line + 1 } record with
           | (c2, none) => parseLoop c2 (some n) rest
           | (c2, some e) => .error (c2.error e))
         else .error (.parseError (c.line + 1) 0 .fieldCount)) := rfl
    rw [hstep, if_pos hrl, hud]
    have hnd0 : record.getD c.emailColumnIndex [] ∉
        rest.map (fun r => r.getD c.emailColumnIndex []) :=
      (List.nodup_cons.mp hnodup).1
    obtain ⟨c', hok, hcount⟩ := ih
      (c := { c with
          line := c.line + 1,
          countedEmails :=
            c.countedEmails ++ [record.getD c.emailColumnIndex []],
          domainCounter := mapIncr c.domainCounter
            (domainPartOf (record.getD c.emailColumnIndex [])) })
      (by simp)
      (fun r hr => hvalid r (List.mem_cons_of_mem _ hr))
      ((List.nodup_cons.mp hnodup).2)
      (fun r hr => by
        simp only [List.mem_append, List.mem_singleton]
        rintro (hin | heq)
        · exact hfresh r (List.mem_cons_of_mem _ hr) hin
        · exact hnd0 (heq ▸ List.mem_map_of_mem _ hr))
      (fun r hr => hlen r (List.mem_cons_of_mem _ hr))
    refine ⟨c', hok, ?_⟩
    intro d
    rw [hcount d]
    simp only [mapIncr_assocSum, List.filter_cons]
    by_cases hd : domainPartOf ((record[c.emailColumnIndex]?).getD []) = d
    · simp [hd]
      omega
    · simp [hd]

theorem updateDomainCounter_fresh_valid {c : CustomerImporter} {record : Row}
    (hm : record.getD c.emailColumnIndex [] ∉ c.countedEmails)
    (hv : IsValidEmail (record.getD c.emailColumnIndex []) = true) :
    updateDomainCounter c record =
      ({ c with
          countedEmails :=
            c.countedEmails ++ [record.getD c.emailColumnIndex []],
          domainCounter := mapIncr c.domainCounter
            (domainPartOf (record.getD c.emailColumnIndex [])) }, none) := by
  rw [updateDomainCounter_cases]
  revert hm hv
  generalize record.getD c.emailColumnIndex [] = email
  intro hm hv
  simp [hm, hv]

/-!  The header scan. -/

theorem findFieldIndex_some {fieldName : Str} {hdr : Row} {s i : Nat}
    (h : findFieldIndex fieldName hdr s = some i) :
    ∃ k, i = s + k ∧ hdr[k]? = some fieldName ∧
      ∀ j, j < k → hdr[j]? ≠ some fieldName := by
  induction hdr generalizing s with
  | nil => simp [findFieldIndex] at h
  | cons r rest ih =>
    by_cases hr : r = fieldName
    · rw [findFieldIndex, if_pos hr] at h
      have hi : i = s := (Option.some.inj h).symm
      refine ⟨0, by omega, by simp [hr], ?_⟩
      intro j hj
      exact absurd hj (Nat.not_lt_zero j)
    · rw [findFieldIndex, if_neg hr] at h
      obtain ⟨k, hk, hget, hprev⟩ := ih h
      refine ⟨k + 1, by omega, by simpa using hget, ?_⟩
      intro j hj
      cases j with
      | zero => simpa using hr
      | succ j' =>
        have hp := hprev j' (by omega)
        simpa using hp

theorem findFieldIndex_none_iff {fieldName : Str} {hdr : Row} {s : Nat} :
    findFieldIndex fieldName hdr s = none ↔ fieldName ∉ hdr := by
  induction hdr generalizing s with
  | nil => simp [findFieldIndex]
  | cons r rest ih =>
    by_cases hr : r = fieldName
    · simp [findFieldIndex, hr]
    · rw [findFieldIndex, if_neg hr, ih]
      constructor
      · intro hnm hmem
        rcases List.mem_cons.mp hmem with he | hm
        · exact hr he.symm
        · exact hnm hm
      · intro hnm hm
        exact hnm (List.mem_cons_of_mem _ hm)

theorem parseLoop_header_cases (c : CustomerImporter) (hdr : Row)
    (rows : List Row) (hline : c.line = 0) :
    (∃ idx, findFieldIndex c.emailFieldName hdr 0 = some idx ∧
      parseLoop c none (hdr :: rows) =
        parseLoop { c with line := 1, emailColumnIndex := idx }
          (some hdr.length) rows) ∨
    (findFieldIndex c.emailFieldName hdr 0 = none ∧
      parseLoop c none (hdr :: rows) =
        .error (.parseError 1 c.emailColumnIndex .fieldNotExists)) := by
  cases hf : findFieldIndex c.emailFieldName hdr 0 with
  | some idx => exact Or.inl ⟨idx, rfl, parseLoop_header rows hline hf⟩
  | none => exact Or.inr ⟨rfl, by rw [parseLoop_header_err rows hf, hline]⟩

/-!  The claims. -/

/-- C2: an email passes syntactic validation iff it contains exactly one
at-sign with a non-empty local part before it and a non-empty domain part
after it; every domain getDomainNameFromEmail accepts is exactly the
substring following the at-sign, and a fresh valid email is counted under
precisely that substring. -/
theorem C2_validation_and_domain (email : Str) :
    (IsValidEmail email = true ↔
      (email.count '@' = 1 ∧ localPartOf email ≠ [] ∧
        domainPartOf email ≠ [])) ∧
    (∀ d, getDomainNameFromEmail email = .ok d → d = domainPartOf email) ∧
    (∀ (c : CustomerImporter) (record : Row),
      record.getD c.emailColumnIndex [] = email →
      email ∉ c.countedEmails → IsValidEmail email = true →
      (updateDomainCounter c record).1.domainCounter =
        mapIncr c.domainCounter (domainPartOf email)) := by
  refine ⟨IsValidEmail_iff, ?_, ?_⟩
  · intro d h
    by_cases hv : IsValidEmail email = true
    · rw [getDomainNameFromEmail_of_valid hv] at h
      exact (Except.ok.inj h).symm
    · rw [Bool.not_eq_true] at hv
      rw [getDomainNameFromEmail_of_invalid hv] at h
      simp at h
  · intro c record he hm hv
    subst he
    rw [updateDomainCounter_fresh_valid hm hv]

/-- C2 witness: the concrete address a@b validates and its reported domain
is the substring b after the at-sign. -/
theorem C2_validation_and_domain_witness :
    IsValidEmail (str "a@b") = true ∧ str "b" = domainPartOf (str "a@b") :=
  ⟨rfl, (C2_validation_and_domain (str "a@b")).2.1 (str "b") rfl⟩

/-- C8: resolution scans the header left to right and settles on the first
field exactly equal to the configured name; a header without the name makes
the whole run fail with the field-not-exists error, whatever the data rows
hold and whatever skip flags are set. -/
theorem C8_resolution (fieldName : Str) (hdr : Row) :
    (∀ i, findFieldIndex fieldName hdr 0 = some i →
      (hdr[i]? = some fieldName ∧ ∀ j, j < i → hdr[j]? ≠ some fieldName) ∧
      ∀ c : CustomerImporter, c.emailFieldName = fieldName →
        determineEmailColumnIndex c hdr =
          .ok { c with emailColumnIndex := i }) ∧
    (fieldName ∉ hdr →
      ∀ (rows : List Row) (sd si : Bool),
        Import (hdr :: rows) fieldName (optionsFor sd si) =
          .error (.parseError 1 0 .fieldNotExists)) := by
  constructor
  · intro i h
    obtain ⟨k, hk, hget, hprev⟩ := findFieldIndex_some h
    have hk' : i = k := by omega
    subst hk'
    refine ⟨⟨hget, fun j hj => hprev j hj⟩, ?_⟩
    intro c hc
    simp [determineEmailColumnIndex, hc, h]
  · intro hnm rows sd si
    rw [Import_eq]
    have hidx : findFieldIndex (importInit fieldName sd si).emailFieldName
        hdr 0 = none := findFieldIndex_none_iff.mpr hnm
    rw [parseLoop_header_err rows hidx]
    rfl

/-- C8 witness: in header (name, email) the field email resolves to index 1,
and a header without it fails the run with field-not-exists. -/
theorem C8_resolution_witness :
    ([str "name", str "email"][1]? = some (str "email") ∧
      Import [[str "name"], [str "x@y"]] (str "email") (optionsFor false false) =
        .error (.parseError 1 0 .fieldNotExists)) := by
  constructor
  · exact (((C8_resolution (str "email") [str "name", str "email"]).1 1
      rfl).1).1
  · exact (C8_resolution (str "email") [str "name"]).2
      (by decide) [[str "x@y"]] false false

/-- C7: a data row whose field count differs from the header's stops the run
at once with the reader's field-count error, for every importer state —
skip flags included — and the error does not carry the email column. -/
theorem C7_field_count (c : CustomerImporter) (n : Nat) (record : Row)
    (rest : List Row) (h : record.length ≠ n) :
    parseLoop c (some n) (record :: rest) =
      .error (.parseError (c.line + 1) 0 .fieldCount) ∧
    Import [[str "email"], [str "a@b", str "x"]] (str "email")
        (optionsFor true true) =
      .error (.parseError 2 0 .fieldCount) := by
  constructor
  · have hstep : parseLoop c (some n) (record :: rest) =
        (if record.length = n then
          (match updateDomainCounter { c with line := c.line + 1 } record with
           | (c2, none) => parseLoop c2 (some n) rest
           | (c2, some e) => .error (c2.error e))
         else .error (.parseError (c.line + 1) 0 .fieldCount)) := rfl
    rw [hstep, if_neg h]
  · rfl

/-- C7 witness: a two-field row under a one-field header fails with the
field-count error on line 2. -/
theorem C7_field_count_witness :
    parseLoop (importInit (str "email") true true) (some 1)
        [[str "a", str "b"]] =
      .error (.parseError 1 0 .fieldCount) :=
  (C7_field_count (importInit (str "email") true true) 1
    [str "a", str "b"] [] (by decide)).1

/-- C10: a run over one header row that contains the configured field and
no data rows does not fail with the empty-file error: parsing succeeds and
finalization fails with no-valid-emails; the empty-file error arises
exactly when the stream holds no rows at all. -/
theorem C10_empty_input (f : Str) (sd si : Bool) :
    (Import [] f (optionsFor sd si) = .error (.parseError 1 0 .emptyFile)) ∧
    (∀ hdr idx, findFieldIndex f hdr 0 = some idx →
      Import [hdr] f (optionsFor sd si) =
        .error (.parseError 2 idx .noValidEmailsFound)) ∧
    (∀ hdr rows l col,
      Import (hdr :: rows) f (optionsFor sd si) ≠
        .error (.parseError l col .emptyFile)) := by
  refine ⟨?_, ?_, ?_⟩
  · rw [Import_eq]
    rfl
  · intro hdr idx hidx
    rw [Import_eq, parseLoop_header [] rfl hidx]
    have hok : parseLoop
        { importInit f sd si with line := 1, emailColumnIndex := idx }
        (some hdr.length) [] =
        .ok { importInit f sd si with line := 2, emailColumnIndex := idx } :=
      rfl
    rw [hok]
    exact getResult_err_of_nil rfl
  · intro hdr rows l col h
    rcases parseLoop_header_cases (importInit f sd si) hdr rows rfl with
      ⟨idx, hf, hstep⟩ | ⟨hf, hstep⟩
    · rw [Import_eq, hstep] at h
      cases hp : parseLoop
          { importInit f sd si with line := 1, emailColumnIndex := idx }
          (some hdr.length) rows with
      | error e =>
        rw [hp] at h
        simp at h
        obtain ⟨l', col', k, he, hle, hk⟩ := parseLoop_error_inv (le_refl 1) hp
        rw [he] at h
        simp at h
        obtain ⟨_, _, hke⟩ := h
        rcases hk with ⟨hk, _⟩ | ⟨hk | hk, _⟩
        · exact ErrKind.noConfusion (hke.symm.trans hk)
        · exact ErrKind.noConfusion (hke.symm.trans hk)
        · exact ErrKind.noConfusion (hke.symm.trans hk)
      | ok c1 =>
        rw [hp] at h
        simp at h
        by_cases hnil : c1.domainCounter = []
        · rw [getResult_err_of_nil hnil] at h
          simp at h
        · rw [getResult_ok_of_ne_nil hnil] at h
          simp at h
    · rw [Import_eq, hstep] at h
      simp at h

/-- C10 witness: a header-only input whose header is the configured field
fails with no-valid-emails on line 2, not with empty-file. -/
theorem C10_empty_input_witness :
    Import [[str "email"]] (str "email") (optionsFor false false) =
      .error (.parseError 2 0 .noValidEmailsFound) :=
  (C10_empty_input (str "email") false false).2.1 [str "email"] 0 rfl

theorem updateDomainCounter_dup {c : CustomerImporter} {record : Row}
    (hm : record.getD c.emailColumnIndex [] ∈ c.countedEmails) :
    updateDomainCounter c record =
      (c, if c.skipErrDupEmails then none else some .emailDuplicate) := by
  rw [updateDomainCounter_cases]
  revert hm
  generalize record.getD c.emailColumnIndex [] = email
  intro hm
  simp [hm]

theorem parseLoop_step_ok {c c2 : CustomerImporter} {n : Nat} {record : Row}
    (rest : List Row) (hlen : record.length = n)
    (hud : updateDomainCounter { c with line := c.line + 1 } record =
      (c2, none)) :
    parseLoop c (some n) (record :: rest) = parseLoop c2 (some n) rest := by
  have hstep : parseLoop c (some n) (record :: rest) =
      (if record.length = n then
        (match updateDomainCounter { c with line := c.line + 1 } record with
         | (c2, none) => parseLoop c2 (some n) rest
         | (c2, some e) => .error (c2.error e))
       else .error (.parseError (c.line + 1) 0 .fieldCount)) := rfl
  rw [hstep, if_pos hlen, hud]

theorem parseLoop_step_err {c c2 : CustomerImporter} {n : Nat} {record : Row}
    (rest : List Row) {e : ErrKind} (hlen : record.length = n)
    (hud : updateDomainCounter { c with line := c.line + 1 } record =
      (c2, some e)) :
    parseLoop c (some n) (record :: rest) =
      .error (.parseError c2.line c2.emailColumnIndex e) := by
  have hstep : parseLoop c (some n) (record :: rest) =
      (if record.length = n then
        (match updateDomainCounter { c with line := c.line + 1 } record with
         | (c2, none) => parseLoop c2 (some n) rest
         | (c2, some e) => .error (c2.error e))
       else .error (.parseError (c.line + 1) 0 .fieldCount)) := rfl
  rw [hstep, if_pos hlen, hud]
  rfl

/-- C3 counterexample: with skipInvalidEmails set, a skipped invalid row
does change the aggregation state: the invalid email bademail enters the
seen-email set even though it is never counted, and a second row with the
same invalid email therefore fails the run with the duplicate error. -/
theorem C3_counterexample :
    (updateDomainCounter (importInit (str "email") false true)
        [str "bademail"]).2 = none ∧
    (updateDomainCounter (importInit (str "email") false true)
        [str "bademail"]).1.countedEmails = [str "bademail"] ∧
    IsValidEmail (str "bademail") = false ∧
    Import [[str "email"], [str "bademail"], [str "bademail"]] (str "email")
        (optionsFor false true) =
      .error (.parseError 3 0 .emailDuplicate) :=
  ⟨rfl, rfl, rfl, rfl⟩

/-- C3 (amended): a row whose not-yet-seen email fails validation fails the
run with the invalid-email error unless skipInvalidEmails is set, in which
case the row is ignored; in both cases the domain counter is untouched, but
the duplicate check has already marked the email as seen, so the seen-email
set grows even for a row that is never counted. -/
theorem C3_invalid_email (c : CustomerImporter) (record : Row)
    (hm : record.getD c.emailColumnIndex [] ∉ c.countedEmails)
    (hv : IsValidEmail (record.getD c.emailColumnIndex []) = false) :
    (updateDomainCounter c record).1.domainCounter = c.domainCounter ∧
    (updateDomainCounter c record).1.countedEmails =
      c.countedEmails ++ [record.getD c.emailColumnIndex []] ∧
    (updateDomainCounter c record).2 =
      (if c.skipErrInvalidEmails then none else some .emailIsNotValid) := by
  rw [updateDomainCounter_cases]
  revert hm hv
  generalize record.getD c.emailColumnIndex [] = email
  intro hm hv
  simp [hm, hv]

/-- C3 witness: with no skip flag the invalid row errors and is still
marked as seen. -/
theorem C3_invalid_email_witness :
    (updateDomainCounter (importInit (str "email") false false)
        [str "bad"]).1.countedEmails = [str "bad"] ∧
    (updateDomainCounter (importInit (str "email") false false)
        [str "bad"]).2 = some .emailIsNotValid := by
  have h := C3_invalid_email (importInit (str "email") false false)
    [str "bad"] (by simp [importInit]) rfl
  exact ⟨h.2.1, h.2.2⟩

/-- C4: a row whose email is already in the seen set fails with the
duplicate error unless skipDuplicateEmails is set, in which case the state
is returned unchanged — no count increment, no re-marking; consequently a
valid email appearing on two rows is counted exactly once for its domain
under the option, and aborts the run with the duplicate error without it. -/
theorem C4_duplicate_email :
    (∀ (c : CustomerImporter) (record : Row),
      record.getD c.emailColumnIndex [] ∈ c.countedEmails →
      updateDomainCounter c record =
        (c, if c.skipErrDupEmails then none else some .emailDuplicate)) ∧
    (∀ f email, IsValidEmail email = true →
      Import [[f], [email], [email]] f (optionsFor true false) =
        .ok [{ Domain := domainPartOf email, EmailsCount := 1 }]) ∧
    (∀ f email, IsValidEmail email = true →
      Import [[f], [email], [email]] f (optionsFor false false) =
        .error (.parseError 3 0 .emailDuplicate)) := by
  refine ⟨fun c record hm => updateDomainCounter_dup hm, ?_, ?_⟩
  · intro f email hv
    rw [Import_eq]
    simp [parseLoop, determineEmailColumnIndex, findFieldIndex, importInit,
      updateDomainCounter, handleDuplicates, getDomainNameFromEmail_of_valid hv,
      mapIncr, getResult, sortResult, insertSorted, toQty,
      CustomerImporter.error]
  · intro f email hv
    rw [Import_eq]
    simp [parseLoop, determineEmailColumnIndex, findFieldIndex, importInit,
      updateDomainCounter, handleDuplicates, getDomainNameFromEmail_of_valid hv,
      mapIncr, getResult, sortResult, insertSorted, toQty,
      CustomerImporter.error]

/-- C4 witness: the address a@b.io fed twice — counted once with the skip
option, duplicate error without it. -/
theorem C4_duplicate_email_witness :
    Import [[str "email"], [str "a@b.io"], [str "a@b.io"]] (str "email")
        (optionsFor true false) =
      .ok [{ Domain := str "b.io", EmailsCount := 1 }] ∧
    Import [[str "email"], [str "a@b.io"], [str "a@b.io"]] (str "email")
        (optionsFor false false) =
      .error (.parseError 3 0 .emailDuplicate) :=
  ⟨C4_duplicate_email.2.1 (str "email") (str "a@b.io") rfl,
   C4_duplicate_email.2.2 (str "email") (str "a@b.io") rfl⟩

/-- C6: finalization fails with no-valid-emails exactly when the domain
counter is empty — an input whose rows were all skipped is a failure, not
an empty success — and every successful run returns a non-empty list whose
counts are all at least one. -/
theorem C6_no_valid_emails :
    (∀ c : CustomerImporter,
      getResult c = .error (.parseError c.line c.emailColumnIndex
        .noValidEmailsFound) ↔ c.domainCounter = []) ∧
    (Import [[str "email"], [str "bad"]] (str "email")
        (optionsFor false true) =
      .error (.parseError 3 0 .noValidEmailsFound)) ∧
    (∀ rows f sd si res, Import rows f (optionsFor sd si) = .ok res →
      res ≠ [] ∧ ∀ q ∈ res, 1 ≤ q.EmailsCount) := by
  refine ⟨?_, rfl, ?_⟩
  · intro c
    constructor
    · intro h
      by_cases hnil : c.domainCounter = []
      · exact hnil
      · rw [getResult_ok_of_ne_nil hnil] at h
        simp at h
    · exact getResult_err_of_nil
  · intro rows f sd si res h
    rw [Import_eq] at h
    cases hp : parseLoop (importInit f sd si) none rows with
    | error e =>
      rw [hp] at h
      simp at h
    | ok c1 =>
      rw [hp] at h
      simp at h
      obtain ⟨hres, hnil⟩ := getResult_ok_inv h
      have hpos : ∀ p ∈ c1.domainCounter, 1 ≤ p.2 := by
        cases rows with
        | nil => simp [parseLoop, importInit] at hp
        | cons hdr rest =>
          rcases parseLoop_header_cases (importInit f sd si) hdr rest rfl with
            ⟨idx, hf, hstep⟩ | ⟨hf, hstep⟩
          · rw [hstep] at hp
            obtain ⟨_, _, _, _, _, _, hposfun⟩ :=
              parseLoop_ok_inv (le_refl 1) hp
            exact hposfun (by simp [importInit])
          · rw [hstep] at hp
            simp at hp
      constructor
      · intro hnilres
        rw [hnilres] at hres
        have hlen := (sortResult_perm (c1.domainCounter.map toQty)).length_eq
        rw [← hres] at hlen
        simp at hlen
        exact hnil (List.eq_nil_of_length_eq_zero hlen.symm)
      · intro q hq
        rw [hres] at hq
        have hqL : q ∈ c1.domainCounter.map toQty :=
          (sortResult_perm _).mem_iff.mp hq
        obtain ⟨p, hp2, hq2⟩ := List.mem_map.mp hqL
        rw [← hq2]
        exact hpos p hp2

/-- C6 witness: a one-domain run returns the non-empty result with count
one, as the successful-run clause demands. -/
theorem C6_no_valid_emails_witness :
    ([{ Domain := str "b.io", EmailsCount := 1 }] : EmailsByDomainQtyList) ≠
      ([] : EmailsByDomainQtyList) ∧
    ∀ q ∈ ([{ Domain := str "b.io", EmailsCount := 1 }] :
      EmailsByDomainQtyList), 1 ≤ q.EmailsCount :=
  (C6_no_valid_emails.2.2 [[str "email"], [str "a@b.io"]] (str "email")
    false false [{ Domain := str "b.io", EmailsCount := 1 }] rfl)

/-- C5: the result of every successful run is strictly ascending in the
byte-lexicographic domain order, and the order is independent of the row
order: each of the 24 orders of four rows with domains a.io, b.io, c.io,
d.io produces exactly the ascending sequence a.io, b.io, c.io, d.io. -/
theorem C5_sorted_result :
    (∀ rows f sd si res, Import rows f (optionsFor sd si) = .ok res →
      res.Pairwise ltDomain) ∧
    (∀ p ∈ ([
       [[str "x@a.io"], [str "y@b.io"], [str "z@c.io"], [str "w@d.io"]],
       [[str "x@a.io"], [str "y@b.io"], [str "w@d.io"], [str "z@c.io"]],
       [[str "x@a.io"], [str "z@c.io"], [str "y@b.io"], [str "w@d.io"]],
       [[str "x@a.io"], [str "z@c.io"], [str "w@d.io"], [str "y@b.io"]],
       [[str "x@a.io"], [str "w@d.io"], [str "y@b.io"], [str "z@c.io"]],
       [[str "x@a.io"], [str "w@d.io"], [str "z@c.io"], [str "y@b.io"]],
       [[str "y@b.io"], [str "x@a.io"], [str "z@c.io"], [str "w@d.io"]],
       [[str "y@b.io"], [str "x@a.io"], [str "w@d.io"], [str "z@c.io"]],
       [[str "y@b.io"], [str "z@c.io"], [str "x@a.io"], [str "w@d.io"]],
       [[str "y@b.io"], [str "z@c.io"], [str "w@d.io"], [str "x@a.io"]],
       [[str "y@b.io"], [str "w@d.io"], [str "x@a.io"], [str "z@c.io"]],
       [[str "y@b.io"], [str "w@d.io"], [str "z@c.io"], [str "x@a.io"]],
       [[str "z@c.io"], [str "x@a.io"], [str "y@b.io"], [str "w@d.io"]],
       [[str "z@c.io"], [str "x@a.io"], [str "w@d.io"], [str "y@b.io"]],
       [[str "z@c.io"], [str "y@b.io"], [str "x@a.io"], [str "w@d.io"]],
       [[str "z@c.io"], [str "y@b.io"], [str "w@d.io"], [str "x@a.io"]],
       [[str "z@c.io"], [str "w@d.io"], [str "x@a.io"], [str "y@b.io"]],
       [[str "z@c.io"], [str "w@d.io"], [str "y@b.io"], [str "x@a.io"]],
       [[str "w@d.io"], [str "x@a.io"], [str "y@b.io"], [str "z@c.io"]],
       [[str "w@d.io"], [str "x@a.io"], [str "z@c.io"], [str "y@b.io"]],
       [[str "w@d.io"], [str "y@b.io"], [str "x@a.io"], [str "z@c.io"]],
       [[str "w@d.io"], [str "y@b.io"], [str "z@c.io"], [str "x@a.io"]],
       [[str "w@d.io"], [str "z@c.io"], [str "x@a.io"], [str "y@b.io"]],
       [[str "w@d.io"], [str "z@c.io"], [str "y@b.io"], [str "x@a.io"]]] : List (List Row)),
      Import ([str "email"] :: p) (str "email") (optionsFor false false) =
        .ok [{ Domain := str "a.io", EmailsCount := 1 },
             { Domain := str "b.io", EmailsCount := 1 },
             { Domain := str "c.io", EmailsCount := 1 },
             { Domain := str "d.io", EmailsCount := 1 }]) := by
  constructor
  · intro rows f sd si res h
    rw [Import_eq] at h
    cases hp : parseLoop (importInit f sd si) none rows with
    | error e =>
      rw [hp] at h
      simp at h
    | ok c1 =>
      rw [hp] at h
      simp at h
      obtain ⟨hres, hnil⟩ := getResult_ok_inv h
      have hnd : (c1.domainCounter.map Prod.fst).Nodup := by
        cases rows with
        | nil => simp [parseLoop, importInit] at hp
        | cons hdr rest =>
          rcases parseLoop_header_cases (importInit f sd si) hdr rest rfl with
            ⟨idx, hf, hstep⟩ | ⟨hf, hstep⟩
          · rw [hstep] at hp
            obtain ⟨_, _, _, _, _, hndfun, _⟩ :=
              parseLoop_ok_inv (le_refl 1) hp
            exact hndfun (by simp [importInit])
          · rw [hstep] at hp
            simp at hp
      have hndq : ((c1.domainCounter.map toQty).map
          (fun e => e.Domain)).Nodup := by
        rw [List.map_map]
        exact hnd
      rw [hres]
      exact sortResult_pairwise_lt hndq
  · decide

/-- C5 witness: a successful four-domain run fed in a scrambled order is
strictly ascending by domain. -/
theorem C5_sorted_result_witness :
    ([{ Domain := str "a.io", EmailsCount := 1 },
      { Domain := str "b.io", EmailsCount := 1 },
      { Domain := str "c.io", EmailsCount := 1 },
      { Domain := str "d.io", EmailsCount := 1 }]
        : EmailsByDomainQtyList).Pairwise ltDomain :=
  C5_sorted_result.1
    ([str "email"] :: [[str "w@d.io"], [str "x@a.io"], [str "z@c.io"],
      [str "y@b.io"]])
    (str "email") false false _ rfl

/-- C9 counterexample: the email column resolves to index 1, yet the
malformed-record failure surfaces the reader's error with column 0, so not
every surfaced error carries the resolved email column index. -/
theorem C9_counterexample :
    findFieldIndex (str "email") [str "name", str "email"] 0 = some 1 ∧
    Import [[str "name", str "email"], [str "x"]] (str "email")
        (optionsFor false false) =
      .error (.parseError 2 0 .fieldCount) :=
  ⟨rfl, rfl⟩

/-- C9 (amended): once the header resolves, every surfaced error carries a
line number of at least 2 (the header is line 1), and it carries the
resolved email column index except for the reader's field-count error,
which is propagated unwrapped and carries column 0. -/
theorem C9_line_and_column (f : Str) (sd si : Bool) (hdr : Row)
    (rows : List Row) (idx l col : Nat) (k : ErrKind)
    (hidx : findFieldIndex f hdr 0 = some idx)
    (h : Import (hdr :: rows) f (optionsFor sd si) =
      .error (.parseError l col k)) :
    2 ≤ l ∧ ((k = .fieldCount ∧ col = 0) ∨
      (col = idx ∧ (k = .emailIsNotValid ∨ k = .emailDuplicate ∨
        k = .noValidEmailsFound))) := by
  rw [Import_eq] at h
  rcases parseLoop_header_cases (importInit f sd si) hdr rows rfl with
    ⟨idx2, hf, hstep⟩ | ⟨hf, hstep⟩
  · simp only [importInit] at hf
    rw [hidx] at hf
    have hidx2 : idx = idx2 := Option.some.inj hf
    subst hidx2
    rw [hstep] at h
    cases hp : parseLoop
        { importInit f sd si with line := 1, emailColumnIndex := idx }
        (some hdr.length) rows with
    | error e =>
      rw [hp] at h
      simp at h
      obtain ⟨l', col', k', he, hle, hk⟩ := parseLoop_error_inv (le_refl 1) hp
      rw [he] at h
      obtain ⟨hl, hcol, hke⟩ := ImpError.parseError.inj h
      subst hl
      subst hcol
      subst hke
      refine ⟨hle, ?_⟩
      rcases hk with ⟨hk1, hk2⟩ | ⟨hk1 | hk1, hk2⟩
      · exact Or.inl ⟨hk1, hk2⟩
      · exact Or.inr ⟨hk2, Or.inl hk1⟩
      · exact Or.inr ⟨hk2, Or.inr (Or.inl hk1)⟩
    | ok c1 =>
      rw [hp] at h
      simp at h
      obtain ⟨hcol1, _, _, _, hline1, _, _⟩ := parseLoop_ok_inv (le_refl 1) hp
      simp [importInit] at hcol1 hline1
      by_cases hnil : c1.domainCounter = []
      · rw [getResult_err_of_nil hnil] at h
        obtain ⟨hl, hcol, hke⟩ := ImpError.parseError.inj (Except.error.inj h)
        subst hl
        subst hcol
        subst hke
        refine ⟨by omega, Or.inr ⟨hcol1, Or.inr (Or.inr rfl)⟩⟩
      · rw [getResult_ok_of_ne_nil hnil] at h
        simp at h
  · simp only [importInit] at hf
    rw [hidx] at hf
    simp at hf

/-- C9 witness: an invalid email in resolved column 1 errors on line 2
carrying column 1. -/
theorem C9_line_and_column_witness :
    2 ≤ 2 ∧ ((ErrKind.emailIsNotValid = ErrKind.fieldCount ∧ 1 = 0) ∨
      (1 = 1 ∧ (ErrKind.emailIsNotValid = ErrKind.emailIsNotValid ∨
        ErrKind.emailIsNotValid = ErrKind.emailDuplicate ∨
        ErrKind.emailIsNotValid = ErrKind.noValidEmailsFound))) :=
  C9_line_and_column (str "email") false false [str "name", str "email"]
    [[str "a", str "bad"]] 1 2 1 .emailIsNotValid rfl rfl

/-- C1 counterexample: the header-only input satisfies every hypothesis of
the claim vacuously — the header contains the field and all (zero) data
rows are well-formed with distinct valid emails — yet the run does not
succeed: it fails with the no-valid-emails error. -/
theorem C1_counterexample :
    Import [[str "email"]] (str "email") (optionsFor false false) =
      .error (.parseError 2 0 .noValidEmailsFound) ∧
    ∀ res, Import [[str "email"]] (str "email") (optionsFor false false) ≠
      .ok res := by
  refine ⟨rfl, ?_⟩
  intro res h
  rw [show Import [[str "email"]] (str "email") (optionsFor false false) =
    .error (.parseError 2 0 .noValidEmailsFound) from rfl] at h
  exact Except.noConfusion h

/-- C1 (amended): for every input whose header contains the configured
field, whose data rows all match the header's width and carry pairwise
distinct syntactically valid emails, and which has at least one data row,
the run with both skip options off succeeds, and for each domain the
reported count equals the number of data rows whose email has that
domain. -/
theorem C1_import_counts (f : Str) (hdr : Row) (rows : List Row) (idx : Nat)
    (hidx : findFieldIndex f hdr 0 = some idx)
    (hlen : ∀ r ∈ rows, r.length = hdr.length)
    (hvalid : ∀ r ∈ rows, IsValidEmail (r.getD idx []) = true)
    (hnodup : (rows.map (fun r => r.getD idx [])).Nodup)
    (hne : rows ≠ []) :
    ∃ res, Import (hdr :: rows) f (optionsFor false false) = .ok res ∧
      ∀ d, reportedCount res d =
        (rows.filter (fun r => domainPartOf (r.getD idx []) = d)).length := by
  rw [Import_eq, parseLoop_header rows rfl hidx]
  simp only [importInit]
  obtain ⟨c', hok, hcount⟩ := parseLoop_ok_counts (c :=
      { importInit f false false with line := 1, emailColumnIndex := idx })
    (le_refl 1) hvalid hnodup (fun r hr => by simp [importInit]) hlen
  simp only [importInit] at hok hcount
  have hne2 : c'.domainCounter ≠ [] := by
    obtain ⟨r0, rest0, hr0⟩ : ∃ r0 rest0, rows = r0 :: rest0 := by
      cases rows with
      | nil => exact absurd rfl hne
      | cons a l => exact ⟨a, l, rfl⟩
    intro hnil
    have hd0 := hcount (domainPartOf (r0.getD idx []))
    rw [hnil] at hd0
    simp [assocSum, importInit] at hd0
    have hfe := List.length_eq_zero.mp hd0.symm
    have hall := List.filter_eq_nil_iff.mp hfe
    have hr0m := hall r0 (by rw [hr0]; exact List.mem_cons_self _ _)
    simp at hr0m
  refine ⟨sortResult (c'.domainCounter.map toQty), ?_, ?_⟩
  · rw [hok]
    exact getResult_ok_of_ne_nil hne2
  · intro d
    rw [reportedCount_perm (sortResult_perm _), reportedCount_map_toQty,
      hcount d]
    simp [assocSum, importInit]

/-- C1 witness: three distinct valid emails over two domains — the run
succeeds and reports per-domain counts equal to the row counts. -/
theorem C1_import_counts_witness :
    ∃ res, Import [[str "email"], [str "m@a.io"], [str "n@a.io"],
        [str "p@b.io"]] (str "email") (optionsFor false false) = .ok res ∧
      ∀ d, reportedCount res d =
        (([[str "m@a.io"], [str "n@a.io"], [str "p@b.io"]] : List Row).filter
          (fun r => domainPartOf (r.getD 0 []) = d)).length :=
  C1_import_counts (str "email") [str "email"]
    [[str "m@a.io"], [str "n@a.io"], [str "p@b.io"]] 0 rfl
    (by decide) (by decide) (by decide) (by decide)
